import Mathlib

/-!
Verification of the ImgCast plugin core (`src/main.ts`).

The repository's core is two procedures:
* `getTFileFormHref` (main.ts:91-109): resolve a displayed image URL back to a
  vault file, and
* `sendToImgCast` (main.ts:111-150): upload a vault file to the configured
  endpoint as a multipart POST.

This file gives a shallow embedding of those two functions over explicit
models of the host primitives they call (`new URL`, `decodeURI`, node's
`path.resolve`/`path.basename`, Obsidian's `normalizePath`, the vault index,
the `mime` lookup).  Exceptions thrown by the JavaScript primitives (the
`URL` constructor on a malformed input, `decodeURI` on a malformed escape)
are modelled as `Except.error`, since the source never catches them; the
`Notice` calls are modelled as a list of emitted notification strings; the
single HTTP request issued by an upload is modelled as a record of the
request that would go on the wire.

Modelling conventions (stated once here):
* Strings are sequences of Unicode characters; the distinction between
  JavaScript UTF-16 code units and characters is immaterial for every input
  considered (all concrete inputs are ASCII).
* `path.resolve` is modelled with the process working directory fixed to the
  filesystem root `/`, so that `resolve(p)` of a relative `p` is `/p`
  normalized, matching the evident intent of `main.ts:93-94` (which strips
  the pathname's leading slash before resolving).
* The `URL` model covers hierarchical `scheme://authority/path?query#hash`
  URLs (the only shape the plugin ever receives); hostname case folding,
  default-port stripping, userinfo and percent-normalization performed by the
  WHATWG parser are outside the model and unused by every claim.
* `decodeURI` is modelled for single-byte (ASCII) percent escapes; multi-byte
  UTF-8 escape sequences are outside the model (no claim exercises them).
  As in JavaScript, escapes of URI-reserved characters are left encoded.
* The multipart encoder (`formdata-node` + `form-data-encoder`) is modelled
  by the list of form parts plus a `content-type: multipart/form-data`
  header; the random boundary string and the content-length are outside the
  model and unused by every claim.
-/

set_option maxRecDepth 20000

namespace ImgCast

/-! ## List-of-characters utilities used by the environment models -/

/-- Take characters until one in `stop` is found; return the taken part and
the remainder (the stop character, when found, begins the remainder). -/
def takeUntilSet (stop : List Char) : List Char → List Char × List Char
  | [] => ([], [])
  | c :: cs =>
    if c ∈ stop then ([], c :: cs)
    else
      let r := takeUntilSet stop cs
      (c :: r.1, r.2)

/-- Split a character list on a separator character (like JS `split`): the
result is the list of (possibly empty) groups between separators, never `[]`. -/
def splitOnChar (sep : Char) : List Char → List (List Char)
  | [] => [[]]
  | c :: cs =>
    match splitOnChar sep cs with
    | [] => [[c]]
    | g :: gs => if c = sep then [] :: g :: gs else (c :: g) :: gs

/-- Join character-list groups with `/` (inverse of `splitOnChar '/'` on
slash-free groups). -/
def joinS : List (List Char) → List Char
  | [] => []
  | [g] => g
  | g :: gs => g ++ '/' :: joinS gs

/-- Boolean list-prefix test, modelling JS `String.prototype.startsWith`. -/
def listIsPfx : List Char → List Char → Bool
  | [], _ => true
  | _ :: _, [] => false
  | a :: as, b :: bs => a = b && listIsPfx as bs

/-- JS `s.startsWith(pre)`. -/
def jsStartsWith (s pre : String) : Bool := listIsPfx pre.toList s.toList

/-- JS `s.substring(n)` (drop the first `n` code units; ASCII inputs make
code units and characters coincide). -/
def jsSubstringFrom (s : String) (n : Nat) : String := String.mk (s.toList.drop n)

/-! ## Model of `decodeURI` -/

/-- Value of one hexadecimal digit (both cases), `none` otherwise. -/
def hexVal (c : Char) : Option Nat :=
  let n := c.toNat
  if 48 ≤ n ∧ n ≤ 57 then some (n - 48)        -- 0-9
  else if 97 ≤ n ∧ n ≤ 102 then some (n - 87)  -- a-f
  else if 65 ≤ n ∧ n ≤ 70 then some (n - 55)   -- A-F
  else none

/-- URI-reserved characters whose escapes `decodeURI` leaves encoded. -/
def uriReserved (c : Char) : Bool :=
  c ∈ [';', '/', '?', ':', '@', '&', '=', '+', '$', ',', '#']

/-- Character-level model of JS `decodeURI`: `none` models a thrown
`URIError` (malformed escape). Escapes of reserved characters stay encoded;
multi-byte (≥ 0x80) escape sequences are outside the model. -/
def decodeURIChars : List Char → Option (List Char)
  | [] => some []
  | c :: rest =>
    if c = '%' then
      match rest with
      | a :: b :: rest2 =>
        match hexVal a, hexVal b with
        | some ha, some hb =>
          let n := 16 * ha + hb
          if n < 128 then
            let d : Char := Char.ofNat n
            match decodeURIChars rest2 with
            | some r => some (if uriReserved d then '%' :: a :: b :: r else d :: r)
            | none => none
          else none
        | _, _ => none
      | _ => none
    else
      match decodeURIChars rest with
      | some r => some (c :: r)
      | none => none

/-- JS `decodeURI` on strings; `none` models a thrown `URIError`. -/
def decodeURI (s : String) : Option String := (decodeURIChars s.toList).map String.mk

/-! ## Model of node `path.resolve` and `path.basename` (POSIX, cwd = `/`) -/

/-- One step of POSIX path resolution over a stack of path segments. -/
def resolveStep (stack : List (List Char)) (seg : List Char) : List (List Char) :=
  if seg = [] ∨ seg = ['.'] then stack
  else if seg = ['.', '.'] then stack.dropLast
  else stack ++ [seg]

/-- Node `path.resolve(p)` with the working directory fixed to `/`: the
result is the absolute, canonical form of `p` (`.`/`..` resolved, duplicate
and trailing slashes removed, `..` clamped at the root). -/
def resolve (p : String) : String :=
  String.mk ('/' :: joinS ((splitOnChar '/' p.toList).foldl resolveStep []))

/-- Node `path.basename(p)` (POSIX): the final path component, ignoring
trailing slashes. -/
def basename (p : String) : String :=
  String.mk (((p.toList.reverse.dropWhile (· = '/')).takeWhile (· ≠ '/')).reverse)

/-! ## Model of the WHATWG `URL` constructor -/

structure ParsedURL where
  protocol : String
  hostname : String
  port : String
  pathname : String
  search : String
  hash : String
  deriving DecidableEq, Repr

def isSchemeChar (c : Char) : Bool := c.isAlphanum || c = '+' || c = '-' || c = '.'

def schemeOK (s : List Char) : Bool :=
  match s with
  | [] => false
  | c :: _ => c.isAlpha && s.all isSchemeChar

def splitHostPort (auth : List Char) : List Char × List Char :=
  let hp := takeUntilSet [':'] auth
  (hp.1, hp.2.drop 1)

/-- Model of `new URL(href)` for hierarchical `scheme://...` URLs; `none`
models the thrown `TypeError` on a malformed input. -/
def parseURL (href : String) : Option ParsedURL :=
  let cs := href.toList
  let sr := takeUntilSet [':'] cs
  match sr.2 with
  | ':' :: '/' :: '/' :: r =>
    if schemeOK sr.1 then
      let ar := takeUntilSet ['/', '?', '#'] r
      let hp := splitHostPort ar.1
      let pr : List Char × List Char :=
        match ar.2 with
        | '/' :: _ => takeUntilSet ['?', '#'] ar.2
        | _ => (['/'], ar.2)
      let sh : List Char × List Char :=
        match pr.2 with
        | '?' :: q =>
          let qh := takeUntilSet ['#'] q
          ('?' :: qh.1, qh.2)
        | _ => ([], pr.2)
      some { protocol := String.mk (sr.1 ++ [':']), hostname := String.mk hp.1,
             port := String.mk hp.2, pathname := String.mk pr.1,
             search := String.mk sh.1, hash := String.mk sh.2 }
    else none
  | _ => none

/-! ## Model of the `mime` package (image types) and the Obsidian host -/

/-- Model of `mime.getType(extension)`, restricted to common image types;
`none` models the `null` returned for an unknown extension. -/
def mimeGetType (ext : String) : Option String :=
  if ext = "png" then some "image/png"
  else if ext = "jpg" then some "image/jpeg"
  else if ext = "jpeg" then some "image/jpeg"
  else if ext = "gif" then some "image/gif"
  else if ext = "webp" then some "image/webp"
  else if ext = "svg" then some "image/svg+xml"
  else if ext = "bmp" then some "image/bmp"
  else none

/-- Obsidian `normalizePath`: backslashes become slashes, duplicate slashes
collapse, leading and trailing slashes are trimmed. -/
def normalizePath (p : String) : String :=
  String.mk (joinS ((splitOnChar '/'
    (p.toList.map (fun c => if c = '\\' then '/' else c))).filter (fun g => !g.isEmpty)))

/-- An Obsidian `TFile`: a vault-relative path plus the extension used for
MIME detection. -/
structure TFile where
  path : String
  extension : String
  deriving DecidableEq, Repr

/-- The vault adapter: `FileSystemAdapter` (with its base path) or any other
adapter class. -/
inductive Adapter where
  | fileSystem (basePath : String)
  | other
  deriving DecidableEq, Repr

/-- The Obsidian vault as the plugin sees it: its adapter, its file index,
and the binary contents `readBinary` returns for each file. -/
structure Vault where
  adapter : Adapter
  files : List TFile
  readBinary : TFile → List Nat

/-- Obsidian `vault.getFileByPath`: exact lookup in the file index. -/
def getFileByPath (v : Vault) (path : String) : Option TFile :=
  v.files.find? (fun f => f.path == path)

/-! ## The plugin itself -/

structure ImgCastSettings where
  baseURL : String
  apiKey : String
  deriving DecidableEq, Repr

def DEFAULT_SETTINGS : ImgCastSettings :=
  { baseURL := "http://127.0.0.1:8080/upload", apiKey := "secret" }

/-- Exceptions the modelled JS primitives can throw.  The source has no
`try`/`catch`, so an `Except.error` propagates to the host. -/
inductive ImgErr where
  | malformedURL
  | uriError
  deriving DecidableEq, Repr

/-- Result of a (non-throwing) run of `getTFileFormHref`: the returned
`TFile | null` plus the notifications emitted on the way. -/
structure ResolveOut where
  result : Option TFile
  notices : List String
  deriving DecidableEq, Repr

/-- Embedding of `getTFileFormHref` (main.ts:91-109). -/
def getTFileFormHref (v : Vault) (href : String) : Except ImgErr ResolveOut :=
  match parseURL href with
  | none => .error .malformedURL
  | some url =>
    let filePath := jsSubstringFrom url.pathname 1
    match decodeURI filePath with
    | none => .error .uriError
    | some decoded =>
      let filePath := resolve decoded
      match v.adapter with
      | .fileSystem basePath =>
        let filePath :=
          if jsStartsWith filePath basePath then jsSubstringFrom filePath (basePath.length + 1)
          else filePath
        let filePath := normalizePath filePath
        .ok { result := getFileByPath v filePath, notices := [] }
      | .other =>
        .ok { result := none,
              notices := ["ImgCast: Unable to resolve image path. Please use FileSystemAdapter."] }

inductive Transport where
  | plain
  | encrypted
  deriving DecidableEq, Repr

/-- One part of the multipart form body. -/
structure FormPart where
  name : String
  content : List Nat
  contentType : String
  fileName : String
  deriving DecidableEq, Repr

/-- The single HTTP request an upload issues. -/
structure HttpRequest where
  transport : Transport
  method : String
  hostname : String
  port : String
  path : String
  headers : List (String × String)
  body : List FormPart
  deriving DecidableEq, Repr

/-- Observable outcome of a (non-throwing) run of `sendToImgCast` up to the
point the request is written: notifications emitted, requests issued, and
vault paths read via `readBinary`. -/
structure UploadOut where
  notices : List String
  requests : List HttpRequest
  storageReads : List String
  deriving DecidableEq, Repr

/-- Embedding of `sendToImgCast` (main.ts:111-150) up to writing the request.
The response callback is modelled separately by `handleImgCastResponse`. -/
def sendToImgCast (v : Vault) (settings : ImgCastSettings) (file : TFile) :
    Except ImgErr UploadOut :=
  if settings.baseURL = "" then
    .ok { notices := ["ImgCast: Base URL is not set in settings."],
          requests := [], storageReads := [] }
  else
    match parseURL settings.baseURL with
    | none => .error .malformedURL
    | some baseURL =>
      let transport := if baseURL.protocol = "https:" then Transport.encrypted else Transport.plain
      match decodeURI file.path with
      | none => .error .uriError
      | some decoded =>
        let fileName := basename decoded
        let buffer := v.readBinary file
        let part : FormPart :=
          { name := "image", content := buffer,
            contentType := (mimeGetType file.extension).getD "application/octet-stream",
            fileName := fileName }
        .ok { notices := [],
              requests := [{ transport := transport, method := "POST",
                             hostname := baseURL.hostname, port := baseURL.port,
                             path := baseURL.pathname,
                             headers := [("content-type", "multipart/form-data"),
                                         ("X-API-Key", settings.apiKey)],
                             body := [part] }],
              storageReads := [file.path] }

/-- Embedding of the response callback (main.ts:135-141): the notification(s)
emitted for a response with the given status code and body. -/
def handleImgCastResponse (statusCode : Nat) (_body : List Nat) : List String :=
  if statusCode ≠ 200 then ["ImgCast: Error - " ++ toString statusCode]
  else ["ImgCast: Image sent successfully!"]

/-- The `file://` URL displayed for a vault file, as re-encoded from a base
path and a vault-relative path (used to state resolution round-trips). -/
def fileHref (basePath relPath : String) : String :=
  "file://" ++ basePath ++ "/" ++ relPath

/-- A canonical path segment: nonempty, not `.` or `..`, and free of
separators, escapes and URL metacharacters.  Paths built from such segments
are exactly the "decoded, normalized" canonical paths of the specification. -/
def goodSeg (g : List Char) : Bool :=
  decide (g ≠ []) && decide (g ≠ ['.']) && decide (g ≠ ['.', '.']) &&
  g.all (fun c => decide (c ≠ '/') && decide (c ≠ '\\') && decide (c ≠ '%') &&
                  decide (c ≠ ':') && decide (c ≠ '?') && decide (c ≠ '#'))

/-- A concrete filesystem-backed vault used for concrete evaluations: base
directory `/vault`, three indexed image files, constant binary contents. -/
def demoVault : Vault :=
  { adapter := .fileSystem "/vault",
    files := [⟨"img.png", "png"⟩, ⟨"sub/img.png", "png"⟩, ⟨"elsewhere/img.png", "png"⟩],
    readBinary := fun _ => [137, 80, 78, 71] }

/-- A concrete vault whose adapter is not filesystem-backed. -/
def demoVaultOther : Vault :=
  { adapter := .other,
    files := [⟨"img.png", "png"⟩],
    readBinary := fun _ => [137, 80, 78, 71] }

/-! ## General lemmas about the modelled primitives -/

theorem takeUntilSet_all_not (stop : List Char) (l : List Char)
    (h : ∀ c ∈ l, c ∉ stop) : takeUntilSet stop l = (l, []) := by
  induction l with
  | nil => rfl
  | cons c cs ih =>
    have hc : c ∉ stop := h c (by simp)
    simp [takeUntilSet, hc, ih (fun d hd => h d (by simp [hd]))]

theorem decodeURIChars_no_escape (l : List Char) (h : '%' ∉ l) :
    decodeURIChars l = some l := by
  induction l with
  | nil => rfl
  | cons c cs ih =>
    simp only [List.mem_cons, not_or] at h
    have hc : ¬ c = '%' := fun he => h.1 he.symm
    conv_lhs => rw [decodeURIChars.eq_def]
    simp only []
    rw [if_neg hc, ih h.2]

theorem splitOnChar_ne_nil (sep : Char) (l : List Char) : splitOnChar sep l ≠ [] := by
  induction l with
  | nil => exact fun h => List.noConfusion h
  | cons c cs ih =>
    simp only [splitOnChar]
    match h : splitOnChar sep cs with
    | [] => exact absurd h ih
    | g :: gs =>
      by_cases hc : c = sep <;> simp [hc]

theorem splitOnChar_no_sep (sep : Char) (l : List Char) (h : sep ∉ l) :
    splitOnChar sep l = [l] := by
  induction l with
  | nil => rfl
  | cons c cs ih =>
    simp only [List.mem_cons, not_or] at h
    have hc : ¬ c = sep := fun he => h.1 he.symm
    simp [splitOnChar, ih h.2, hc]

theorem splitOnChar_group (sep : Char) (g rest : List Char) (h : sep ∉ g) :
    splitOnChar sep (g ++ sep :: rest) = g :: splitOnChar sep rest := by
  induction g with
  | nil =>
    simp only [List.nil_append, splitOnChar]
    match hs : splitOnChar sep rest with
    | [] => exact absurd hs (splitOnChar_ne_nil sep rest)
    | x :: xs => simp
  | cons c cs ih =>
    simp only [List.mem_cons, not_or] at h
    have hc : ¬ c = sep := fun he => h.1 he.symm
    have ih2 := ih h.2
    simp only [List.cons_append, splitOnChar]
    rw [List.append_eq, ih2]
    simp [hc]

theorem joinS_append (xs ys : List (List Char)) (hx : xs ≠ []) (hy : ys ≠ []) :
    joinS (xs ++ ys) = joinS xs ++ '/' :: joinS ys := by
  induction xs with
  | nil => exact absurd rfl hx
  | cons g gs ih =>
    match gs, ys with
    | [], y :: ys2 => simp [joinS]
    | a :: t, y :: ys2 =>
      have ih2 := ih (by simp)
      simp only [List.cons_append] at ih2 ⊢
      have h1 : joinS (g :: a :: (t ++ y :: ys2)) = g ++ '/' :: joinS (a :: (t ++ y :: ys2)) := rfl
      have h2 : joinS (g :: a :: t) = g ++ '/' :: joinS (a :: t) := rfl
      rw [h1, h2, ih2]
      simp

theorem splitOnChar_joinS (gs : List (List Char)) (hne : gs ≠ [])
    (h : ∀ g ∈ gs, '/' ∉ g) : splitOnChar '/' (joinS gs) = gs := by
  induction gs with
  | nil => exact absurd rfl hne
  | cons g tl ih =>
    match tl with
    | [] => exact splitOnChar_no_sep '/' g (h g (by simp))
    | t :: ts =>
      have hjoin : joinS (g :: t :: ts) = g ++ '/' :: joinS (t :: ts) := rfl
      rw [hjoin, splitOnChar_group '/' g _ (h g (by simp)),
        ih (by simp) (fun x hx => h x (by simp [hx]))]

theorem foldl_resolveStep (gs : List (List Char))
    (h : ∀ g ∈ gs, g ≠ [] ∧ g ≠ ['.'] ∧ g ≠ ['.', '.']) (acc : List (List Char)) :
    gs.foldl resolveStep acc = acc ++ gs := by
  induction gs generalizing acc with
  | nil => simp
  | cons g tl ih =>
    have hg := h g (by simp)
    have hstep : resolveStep acc g = acc ++ [g] := by
      simp [resolveStep, hg.1, hg.2.1, hg.2.2]
    simp only [List.foldl_cons, hstep, ih (fun x hx => h x (by simp [hx]))]
    simp

theorem mem_joinS (c : Char) (gs : List (List Char)) (h : c ∈ joinS gs) :
    c = '/' ∨ ∃ g ∈ gs, c ∈ g := by
  induction gs with
  | nil => simp [joinS] at h
  | cons g tl ih =>
    match tl with
    | [] => exact Or.inr ⟨g, by simp, h⟩
    | t :: ts =>
      have hj : joinS (g :: t :: ts) = g ++ '/' :: joinS (t :: ts) := rfl
      rw [hj] at h
      rcases List.mem_append.mp h with hg | hrest
      · exact Or.inr ⟨g, by simp, hg⟩
      · rcases List.mem_cons.mp hrest with hc | hc
        · exact Or.inl hc
        · rcases ih hc with h1 | ⟨x, hx1, hx2⟩
          · exact Or.inl h1
          · exact Or.inr ⟨x, by simp [hx1], hx2⟩

theorem listIsPfx_self_append (l t : List Char) : listIsPfx l (l ++ t) = true := by
  induction l with
  | nil => rfl
  | cons c cs ih => simp [listIsPfx, ih]

theorem map_unbackslash_id (l : List Char) (h : '\\' ∉ l) :
    l.map (fun c => if c = '\\' then '/' else c) = l := by
  induction l with
  | nil => rfl
  | cons c cs ih =>
    simp only [List.mem_cons, not_or] at h
    have hc : ¬ c = '\\' := fun he => h.1 he.symm
    simp [hc, ih h.2]

/-- The URL model on a `file://` href whose path part is free of URL
metacharacters: the parse succeeds and the pathname is the path part. -/
theorem parseURL_file (t : List Char)
    (ht : ∀ c ∈ t, c ∉ ([':', '?', '#'] : List Char)) :
    parseURL (String.mk ("file://".data ++ '/' :: t)) =
      some { protocol := "file:", hostname := "", port := "",
             pathname := String.mk ('/' :: t), search := "", hash := "" } := by
  have hl : (String.mk ("file://".data ++ '/' :: t)).toList = "file://".data ++ '/' :: t := rfl
  have hsplit : takeUntilSet [':'] ("file://".data ++ '/' :: t)
      = (['f', 'i', 'l', 'e'], ':' :: '/' :: '/' :: '/' :: t) := by
    simp [takeUntilSet]
  have hpath : takeUntilSet ['?', '#'] t = (t, []) :=
    takeUntilSet_all_not _ _ (fun c hc => by
      have := ht c hc
      simp at this ⊢
      tauto)
  have hpr : takeUntilSet ['?', '#'] ('/' :: t) = ('/' :: t, []) := by
    simp [takeUntilSet, hpath]
  have har : takeUntilSet ['/', '?', '#'] ('/' :: t) = ([], '/' :: t) := by
    simp [takeUntilSet]
  have hsch : schemeOK ['f', 'i', 'l', 'e'] = true := by decide
  simp only [parseURL, hl, hsplit, har, hpr, hsch, splitHostPort]
  rfl

/-! ## Unfolding lemmas for the two plugin procedures -/

theorem getTFileFormHref_parse_fail (v : Vault) (href : String)
    (hp : parseURL href = none) : getTFileFormHref v href = .error .malformedURL := by
  simp [getTFileFormHref, hp]

theorem getTFileFormHref_fs (v : Vault) (href : String) (u : ParsedURL)
    (basePath d : String)
    (hp : parseURL href = some u) (ha : v.adapter = .fileSystem basePath)
    (hd : decodeURI (jsSubstringFrom u.pathname 1) = some d) :
    getTFileFormHref v href =
      .ok { result := getFileByPath v (normalizePath
              (if jsStartsWith (resolve d) basePath
               then jsSubstringFrom (resolve d) (basePath.length + 1)
               else resolve d)),
            notices := [] } := by
  simp [getTFileFormHref, hp, hd, ha]

theorem getTFileFormHref_other (v : Vault) (href : String) (u : ParsedURL) (d : String)
    (hp : parseURL href = some u) (ha : v.adapter = .other)
    (hd : decodeURI (jsSubstringFrom u.pathname 1) = some d) :
    getTFileFormHref v href =
      .ok { result := none,
            notices := ["ImgCast: Unable to resolve image path. Please use FileSystemAdapter."] } := by
  simp [getTFileFormHref, hp, hd, ha]

theorem sendToImgCast_run (v : Vault) (settings : ImgCastSettings) (file : TFile)
    (u : ParsedURL) (d : String)
    (h1 : settings.baseURL ≠ "") (hp : parseURL settings.baseURL = some u)
    (hd : decodeURI file.path = some d) :
    sendToImgCast v settings file =
      .ok { notices := [],
            requests := [{ transport := if u.protocol = "https:" then .encrypted else .plain,
                           method := "POST", hostname := u.hostname, port := u.port,
                           path := u.pathname,
                           headers := [("content-type", "multipart/form-data"),
                                       ("X-API-Key", settings.apiKey)],
                           body := [{ name := "image", content := v.readBinary file,
                                      contentType := (mimeGetType file.extension).getD
                                        "application/octet-stream",
                                      fileName := basename d }] }],
            storageReads := [file.path] } := by
  simp [sendToImgCast, h1, hp, hd]

theorem sendToImgCast_parse_fail (v : Vault) (settings : ImgCastSettings) (file : TFile)
    (h1 : settings.baseURL ≠ "") (hp : parseURL settings.baseURL = none) :
    sendToImgCast v settings file = .error .malformedURL := by
  simp [sendToImgCast, h1, hp]

/-! ## The canonical-path pipeline -/

theorem goodSeg_spec (g : List Char) (h : goodSeg g = true) :
    g ≠ [] ∧ g ≠ ['.'] ∧ g ≠ ['.', '.'] ∧
    ∀ c ∈ g, c ≠ '/' ∧ c ≠ '\\' ∧ c ≠ '%' ∧ c ≠ ':' ∧ c ≠ '?' ∧ c ≠ '#' := by
  simp only [goodSeg, Bool.and_eq_true, decide_eq_true_eq, List.all_eq_true] at h
  exact ⟨h.1.1.1, h.1.1.2, h.1.2, fun c hc => by
    have := h.2 c hc
    simp only [Bool.and_eq_true, decide_eq_true_eq] at this
    exact ⟨this.1.1.1.1.1, this.1.1.1.1.2, this.1.1.1.2, this.1.1.2, this.1.2, this.2⟩⟩

/-- The whole resolver pipeline on a canonical path strictly under the base
directory: parsing, decoding, resolving, prefix stripping and normalization
compose to the storage-relative path. -/
theorem resolver_pipeline (bsegs rsegs : List (List Char))
    (hb1 : bsegs ≠ []) (hb2 : ∀ g ∈ bsegs, goodSeg g = true)
    (hr1 : rsegs ≠ []) (hr2 : ∀ g ∈ rsegs, goodSeg g = true)
    (v : Vault) (hadapter : v.adapter = .fileSystem (String.mk ('/' :: joinS bsegs))) :
    getTFileFormHref v
        (fileHref (String.mk ('/' :: joinS bsegs)) (String.mk (joinS rsegs))) =
      .ok { result := getFileByPath v (String.mk (joinS rsegs)), notices := [] } := by
  have hgood : ∀ g ∈ bsegs ++ rsegs, goodSeg g = true := by
    intro g hg
    rcases List.mem_append.mp hg with h1 | h1
    · exact hb2 g h1
    · exact hr2 g h1
  have hne : bsegs ++ rsegs ≠ [] := by
    intro hx
    exact hb1 (List.append_eq_nil.mp hx).1
  have hjoin : joinS (bsegs ++ rsegs) = joinS bsegs ++ '/' :: joinS rsegs :=
    joinS_append _ _ hb1 hr1
  have hchar : ∀ c ∈ joinS (bsegs ++ rsegs),
      c = '/' ∨ (c ≠ '/' ∧ c ≠ '\\' ∧ c ≠ '%' ∧ c ≠ ':' ∧ c ≠ '?' ∧ c ≠ '#') := by
    intro c hc
    rcases mem_joinS c _ hc with h1 | ⟨g, hg1, hg2⟩
    · exact Or.inl h1
    · exact Or.inr ((goodSeg_spec g (hgood g hg1)).2.2.2 c hg2)
  -- Parsing
  have ht : ∀ c ∈ joinS (bsegs ++ rsegs), c ∉ ([':', '?', '#'] : List Char) := by
    intro c hc
    rcases hchar c hc with h1 | h1
    · simp [h1]
    · simp [h1.2.2.2.1, h1.2.2.2.2.1, h1.2.2.2.2.2]
  have hsapp : ∀ a b : String, (a ++ b).data = a.data ++ b.data := fun _ _ => rfl
  have hdata : (fileHref (String.mk ('/' :: joinS bsegs)) (String.mk (joinS rsegs))).data
      = "file://".data ++ '/' :: joinS (bsegs ++ rsegs) := by
    simp [fileHref, hsapp, hjoin]
  have hhref : fileHref (String.mk ('/' :: joinS bsegs)) (String.mk (joinS rsegs))
      = String.mk ("file://".data ++ '/' :: joinS (bsegs ++ rsegs)) :=
    congrArg String.mk hdata
  have hparse := parseURL_file (joinS (bsegs ++ rsegs)) ht
  -- Decoding
  have hpct : '%' ∉ joinS (bsegs ++ rsegs) := by
    intro hc
    rcases hchar '%' hc with h1 | h1
    · exact absurd h1 (by decide)
    · exact h1.2.2.1 rfl
  have hdec : decodeURI (String.mk (joinS (bsegs ++ rsegs)))
      = some (String.mk (joinS (bsegs ++ rsegs))) := by
    simp [decodeURI, decodeURIChars_no_escape _ hpct]
  -- Resolution to the absolute canonical path
  have hsplit2 : splitOnChar '/' (joinS (bsegs ++ rsegs)) = bsegs ++ rsegs :=
    splitOnChar_joinS _ hne (fun g hg hc => ((goodSeg_spec g (hgood g hg)).2.2.2 '/' hc).1 rfl)
  have hfold : (bsegs ++ rsegs).foldl resolveStep [] = bsegs ++ rsegs := by
    have := foldl_resolveStep (bsegs ++ rsegs)
      (fun g hg => ⟨(goodSeg_spec g (hgood g hg)).1, (goodSeg_spec g (hgood g hg)).2.1,
        (goodSeg_spec g (hgood g hg)).2.2.1⟩) []
    simpa using this
  have hres : resolve (String.mk (joinS (bsegs ++ rsegs)))
      = String.mk ('/' :: joinS (bsegs ++ rsegs)) := by
    simp [resolve, hsplit2, hfold]
  -- Base-directory prefix stripping
  have hcons : ('/' :: joinS (bsegs ++ rsegs))
      = ('/' :: joinS bsegs) ++ '/' :: joinS rsegs := by
    rw [hjoin]; rfl
  have hpfx : jsStartsWith (String.mk ('/' :: joinS (bsegs ++ rsegs)))
      (String.mk ('/' :: joinS bsegs)) = true := by
    simp only [jsStartsWith]
    rw [show (String.mk ('/' :: joinS (bsegs ++ rsegs))).toList
        = ('/' :: joinS bsegs) ++ '/' :: joinS rsegs from congrArg id hcons]
    exact listIsPfx_self_append _ _
  have hdrop : jsSubstringFrom (String.mk ('/' :: joinS (bsegs ++ rsegs)))
      ((String.mk ('/' :: joinS bsegs)).length + 1) = String.mk (joinS rsegs) := by
    simp only [jsSubstringFrom]
    rw [show (String.mk ('/' :: joinS (bsegs ++ rsegs))).toList
        = (('/' :: joinS bsegs) ++ ['/']) ++ joinS rsegs from by
      rw [show (String.mk ('/' :: joinS (bsegs ++ rsegs))).toList
          = ('/' :: joinS bsegs) ++ '/' :: joinS rsegs from congrArg id hcons]
      simp]
    rw [List.drop_left' (by simp [String.length])]
  -- Normalization is the identity on the storage-relative path
  have hbs : '\\' ∉ joinS rsegs := by
    intro hc
    rcases mem_joinS '\\' rsegs hc with h1 | ⟨g, hg1, hg2⟩
    · exact absurd h1 (by decide)
    · exact ((goodSeg_spec g (hr2 g hg1)).2.2.2 _ hg2).2.1 rfl
  have hsplit3 : splitOnChar '/' (joinS rsegs) = rsegs :=
    splitOnChar_joinS _ hr1 (fun g hg hc => ((goodSeg_spec g (hr2 g hg)).2.2.2 '/' hc).1 rfl)
  have hfilter : rsegs.filter (fun g => !g.isEmpty) = rsegs := by
    apply List.filter_eq_self.mpr
    intro g hg
    have hne2 := (goodSeg_spec g (hr2 g hg)).1
    simp [List.isEmpty_iff, hne2]
  have hnorm : normalizePath (String.mk (joinS rsegs)) = String.mk (joinS rsegs) := by
    simp only [normalizePath]
    rw [show (String.mk (joinS rsegs)).toList = joinS rsegs from rfl,
      map_unbackslash_id _ hbs, hsplit3, hfilter]
  -- Assemble
  rw [hhref, getTFileFormHref_fs v _ _ (String.mk ('/' :: joinS bsegs))
    (String.mk (joinS (bsegs ++ rsegs))) hparse hadapter
    (by rw [show jsSubstringFrom (String.mk ('/' :: joinS (bsegs ++ rsegs))) 1
          = String.mk (joinS (bsegs ++ rsegs)) from rfl]; exact hdec)]
  rw [hres]
  simp only [hpfx, if_true]
  rw [hdrop, hnorm]

end ImgCast

namespace ImgCast

/-! ## Claim theorems -/

/-- C1: the claim says a sibling directory `/vault2` of the base `/vault`
must not be treated as a child, so `file:///vault2/img.png` must fail to
resolve.  The code instead strips the base by a raw string-prefix check
(main.ts:99-100): on `/vault2/img.png` it strips `/vault` plus one character
and resolves to the vault-root file `img.png` — while the true child
`/vault/sub/img.png` resolves to `sub/img.png` as the claim states. -/
theorem c1_sibling_dir_treated_as_child :
    getTFileFormHref demoVault "file:///vault2/img.png"
        = .ok { result := some ⟨"img.png", "png"⟩, notices := [] }
    ∧ getTFileFormHref demoVault "file:///vault/sub/img.png"
        = .ok { result := some ⟨"sub/img.png", "png"⟩, notices := [] } :=
  ⟨rfl, rfl⟩

/-- C2 counterexample: a URL whose decoded path `/elsewhere/img.png` lies
outside the base directory `/vault` does not fail with the unsupported-backend
notice; the un-stripped path is normalized and looked up, returning the vault
file `elsewhere/img.png` — an unrelated file. -/
theorem c2_counterexample_outside_base_returns_file :
    getTFileFormHref demoVault "file:///elsewhere/img.png"
        = .ok { result := some ⟨"elsewhere/img.png", "png"⟩, notices := [] } :=
  rfl

/-- C2 amended: resolution fails with the `UnsupportedStorageBackend` notice
exactly when the adapter is not filesystem-backed; when the adapter is
filesystem-backed but the decoded resolved path does not start with the base
directory, the base is not stripped and the normalized path is looked up in
the vault index as-is (which may return a file). -/
theorem c2_amended_backend_check_only
    : (∀ (v : Vault) (href : String) (u : ParsedURL) (d : String),
        v.adapter = .other → parseURL href = some u →
        decodeURI (jsSubstringFrom u.pathname 1) = some d →
        getTFileFormHref v href =
          .ok { result := none,
                notices :=
                  ["ImgCast: Unable to resolve image path. Please use FileSystemAdapter."] })
    ∧ (∀ (v : Vault) (basePath href : String) (u : ParsedURL) (d : String),
        v.adapter = .fileSystem basePath → parseURL href = some u →
        decodeURI (jsSubstringFrom u.pathname 1) = some d →
        jsStartsWith (resolve d) basePath = false →
        getTFileFormHref v href =
          .ok { result := getFileByPath v (normalizePath (resolve d)), notices := [] }) := by
  constructor
  · intro v href u d ha hp hd
    exact getTFileFormHref_other v href u d hp ha hd
  · intro v basePath href u d ha hp hd hpfx
    rw [getTFileFormHref_fs v href u basePath d hp ha hd]
    simp [hpfx]

/-- Witness for C2 amended at concrete inputs: a non-filesystem adapter
notices and returns null; a path outside `/vault` is looked up unstripped. -/
theorem c2_amended_backend_check_only_witness :
    getTFileFormHref demoVaultOther "file:///vault/img.png"
        = .ok { result := none,
                notices :=
                  ["ImgCast: Unable to resolve image path. Please use FileSystemAdapter."] }
    ∧ getTFileFormHref demoVault "file:///elsewhere2/img.png"
        = .ok { result := getFileByPath demoVault (normalizePath (resolve "elsewhere2/img.png")),
                notices := [] } := by
  constructor
  · exact c2_amended_backend_check_only.1 demoVaultOther "file:///vault/img.png"
      ⟨"file:", "", "", "/vault/img.png", "", ""⟩ "vault/img.png" rfl rfl rfl
  · exact c2_amended_backend_check_only.2 demoVault "/vault" "file:///elsewhere2/img.png"
      ⟨"file:", "", "", "/elsewhere2/img.png", "", ""⟩ "elsewhere2/img.png" rfl rfl rfl rfl

/-- C3 counterexample: a displayed URL that fails to parse is not converted
to a `MalformedURL` notification — the `URL` constructor's exception
propagates uncaught out of both the resolver and the upload action
(modelled as `Except.error`, with no notification emitted). -/
theorem c3_counterexample_unparseable_input_throws :
    getTFileFormHref demoVault "nourl" = .error .malformedURL
    ∧ sendToImgCast demoVault { baseURL := "nourl", apiKey := "secret" } ⟨"img.png", "png"⟩
        = .error .malformedURL :=
  ⟨rfl, rfl⟩

/-- C3 amended: the specific conditions the code checks (non-filesystem
adapter, empty endpoint, non-200 status, transport errors) each produce a
single notification, but a URL parse failure is not caught anywhere: for
every unparseable href the resolver propagates the exception, and for every
unparseable non-empty endpoint the upload propagates the exception, in both
cases producing no notification. -/
theorem c3_amended_parse_errors_propagate
    : (∀ (v : Vault) (href : String), parseURL href = none →
        getTFileFormHref v href = .error .malformedURL)
    ∧ (∀ (v : Vault) (settings : ImgCastSettings) (file : TFile),
        settings.baseURL ≠ "" → parseURL settings.baseURL = none →
        sendToImgCast v settings file = .error .malformedURL) :=
  ⟨fun v href hp => getTFileFormHref_parse_fail v href hp,
   fun v s f h1 hp => sendToImgCast_parse_fail v s f h1 hp⟩

/-- Witness for C3 amended at a concrete unparseable input. -/
theorem c3_amended_parse_errors_propagate_witness :
    getTFileFormHref demoVault "nourl2" = .error .malformedURL
    ∧ sendToImgCast demoVault { baseURL := "nourl2", apiKey := "secret" } ⟨"img.png", "png"⟩
        = .error .malformedURL :=
  ⟨c3_amended_parse_errors_propagate.1 demoVault "nourl2" rfl,
   c3_amended_parse_errors_propagate.2 demoVault ⟨"nourl2", "secret"⟩ ⟨"img.png", "png"⟩
     (by decide) rfl⟩

/-- C4: with an empty endpoint URL the upload fails immediately with the
missing-configuration notice, issues no request and reads no file, for every
vault, file and API key. -/
theorem c4_empty_endpoint_fails_fast (v : Vault) (file : TFile) (key : String) :
    sendToImgCast v { baseURL := "", apiKey := key } file
      = .ok { notices := ["ImgCast: Base URL is not set in settings."],
              requests := [], storageReads := [] } :=
  rfl

/-- C5 counterexample: for the file whose vault path is `a%20b.png`, the
issued form part's filename is the URI-decoded `a b.png`, which differs from
the file's base name `a%20b.png` (the code takes
`basename(decodeURI(file.path))`, main.ts:119). -/
theorem c5_counterexample_filename_is_decoded :
    sendToImgCast demoVault DEFAULT_SETTINGS ⟨"a%20b.png", "png"⟩
      = .ok { notices := [],
              requests := [{ transport := .plain, method := "POST",
                             hostname := "127.0.0.1", port := "8080", path := "/upload",
                             headers := [("content-type", "multipart/form-data"),
                                         ("X-API-Key", "secret")],
                             body := [{ name := "image", content := [137, 80, 78, 71],
                                        contentType := "image/png",
                                        fileName := "a b.png" }] }],
              storageReads := ["a%20b.png"] }
    ∧ "a b.png" ≠ basename (TFile.mk "a%20b.png" "png").path :=
  ⟨rfl, by decide⟩

/-- C5 amended: every issued request carries a multipart body with exactly
one part named `image`, whose payload is the file's binary content, whose
content type is the MIME type detected from the extension or
`application/octet-stream`, and whose filename is the base name of the
URI-decoded file path (equal to the file's base name whenever the path
contains no percent escape), together with an `X-API-Key` header equal to
the configured credential. -/
theorem c5_amended_upload_request_shape
    (v : Vault) (settings : ImgCastSettings) (file : TFile) (u : ParsedURL) (d : String)
    (h1 : settings.baseURL ≠ "") (hp : parseURL settings.baseURL = some u)
    (hd : decodeURI file.path = some d) :
    ∃ out : UploadOut, sendToImgCast v settings file = .ok out ∧
      out.requests.length = 1 ∧
      ∀ r ∈ out.requests,
        r.body = [{ name := "image", content := v.readBinary file,
                    contentType := (mimeGetType file.extension).getD "application/octet-stream",
                    fileName := basename d }]
        ∧ ("X-API-Key", settings.apiKey) ∈ r.headers := by
  refine ⟨_, sendToImgCast_run v settings file u d h1 hp hd, rfl, ?_⟩
  intro r hr
  simp only [List.mem_singleton] at hr
  subst hr
  exact ⟨rfl, by simp⟩

/-- Witness for C5 amended at a concrete upload. -/
theorem c5_amended_upload_request_shape_witness :
    ∃ out : UploadOut,
      sendToImgCast demoVault DEFAULT_SETTINGS ⟨"a%20b.png", "png"⟩ = .ok out ∧
      out.requests.length = 1 ∧
      ∀ r ∈ out.requests,
        r.body = [{ name := "image", content := demoVault.readBinary ⟨"a%20b.png", "png"⟩,
                    contentType := (mimeGetType (TFile.mk "a%20b.png" "png").extension).getD
                      "application/octet-stream",
                    fileName := basename "a b.png" }]
        ∧ ("X-API-Key", DEFAULT_SETTINGS.apiKey) ∈ r.headers :=
  c5_amended_upload_request_shape demoVault DEFAULT_SETTINGS ⟨"a%20b.png", "png"⟩
    ⟨"http:", "127.0.0.1", "8080", "/upload", "", ""⟩ "a b.png" (by decide) rfl rfl

/-- C6: the response callback reports success exactly for status 200, any
other status yields an error notice carrying the numeric status code, and the
response body is never inspected (the notice is independent of it). -/
theorem c6_response_notice (status : Nat) (body other : List Nat) :
    handleImgCastResponse status body =
      (if status = 200 then ["ImgCast: Image sent successfully!"]
       else ["ImgCast: Error - " ++ toString status])
    ∧ handleImgCastResponse status body = handleImgCastResponse status other := by
  constructor
  · by_cases h : status = 200 <;> simp [handleImgCastResponse, h]
  · rfl

/-- C7: for a well-formed `file://` URL whose decoded, normalized path lies
strictly under the base directory (both built from canonical segments), the
resolver returns the vault file at the storage-relative path, that file's
path is exactly the stripped relative path, and re-resolving the URL
re-encoded from the resolved file yields the same file. -/
theorem c7_resolver_correct_idempotent
    (v : Vault) (f : TFile) (bsegs rsegs : List (List Char))
    (hb1 : bsegs ≠ []) (hb2 : ∀ g ∈ bsegs, goodSeg g = true)
    (hr1 : rsegs ≠ []) (hr2 : ∀ g ∈ rsegs, goodSeg g = true)
    (hadapter : v.adapter = .fileSystem (String.mk ('/' :: joinS bsegs)))
    (hfile : getFileByPath v (String.mk (joinS rsegs)) = some f) :
    getTFileFormHref v (fileHref (String.mk ('/' :: joinS bsegs)) (String.mk (joinS rsegs)))
        = .ok { result := some f, notices := [] }
    ∧ f.path = String.mk (joinS rsegs)
    ∧ getTFileFormHref v (fileHref (String.mk ('/' :: joinS bsegs)) f.path)
        = .ok { result := some f, notices := [] } := by
  have h1 := resolver_pipeline bsegs rsegs hb1 hb2 hr1 hr2 v hadapter
  have hfile2 : v.files.find? (fun g => g.path == String.mk (joinS rsegs)) = some f := hfile
  have h2 := List.find?_some hfile2
  have hpatheq : f.path = String.mk (joinS rsegs) := eq_of_beq h2
  refine ⟨by rw [h1, hfile], hpatheq, ?_⟩
  rw [hpatheq, h1, hfile]

/-- Witness for C7 at the concrete base `/vault` and relative path
`sub/img.png`. -/
theorem c7_resolver_correct_idempotent_witness :
    getTFileFormHref demoVault
        (fileHref (String.mk ('/' :: joinS ["vault".toList]))
          (String.mk (joinS ["sub".toList, "img.png".toList])))
        = .ok { result := some ⟨"sub/img.png", "png"⟩, notices := [] }
    ∧ (TFile.mk "sub/img.png" "png").path
        = String.mk (joinS ["sub".toList, "img.png".toList])
    ∧ getTFileFormHref demoVault
        (fileHref (String.mk ('/' :: joinS ["vault".toList]))
          (TFile.mk "sub/img.png" "png").path)
        = .ok { result := some ⟨"sub/img.png", "png"⟩, notices := [] } :=
  c7_resolver_correct_idempotent demoVault ⟨"sub/img.png", "png"⟩
    ["vault".toList] ["sub".toList, "img.png".toList]
    (by decide) (by decide) (by decide) (by decide) (by decide) (by decide)

/-- C8: the transport of the single issued request is chosen from the
endpoint's scheme — encrypted for `https:`, plain otherwise — once per call
(the output contains exactly one request, so no fallback can occur). -/
theorem c8_transport_from_scheme
    (v : Vault) (settings : ImgCastSettings) (file : TFile) (u : ParsedURL) (d : String)
    (h1 : settings.baseURL ≠ "") (hp : parseURL settings.baseURL = some u)
    (hd : decodeURI file.path = some d) :
    ∃ out : UploadOut, sendToImgCast v settings file = .ok out ∧
      out.requests.length = 1 ∧
      ∀ r ∈ out.requests,
        r.transport = (if u.protocol = "https:" then Transport.encrypted else Transport.plain) := by
  refine ⟨_, sendToImgCast_run v settings file u d h1 hp hd, rfl, ?_⟩
  intro r hr
  simp only [List.mem_singleton] at hr
  subst hr
  rfl

/-- Witness for C8 at an https and an http endpoint. -/
theorem c8_transport_from_scheme_witness :
    (∃ out : UploadOut,
      sendToImgCast demoVault { baseURL := "https://example.com/upload", apiKey := "secret" }
          ⟨"img.png", "png"⟩ = .ok out ∧
      out.requests.length = 1 ∧
      ∀ r ∈ out.requests,
        r.transport = (if ("https:" : String) = "https:" then Transport.encrypted
                       else Transport.plain))
    ∧ (∃ out : UploadOut,
      sendToImgCast demoVault DEFAULT_SETTINGS ⟨"img.png", "png"⟩ = .ok out ∧
      out.requests.length = 1 ∧
      ∀ r ∈ out.requests,
        r.transport = (if ("http:" : String) = "https:" then Transport.encrypted
                       else Transport.plain)) :=
  ⟨c8_transport_from_scheme demoVault ⟨"https://example.com/upload", "secret"⟩
      ⟨"img.png", "png"⟩ ⟨"https:", "example.com", "", "/upload", "", ""⟩ "img.png"
      (by decide) rfl rfl,
   c8_transport_from_scheme demoVault DEFAULT_SETTINGS ⟨"img.png", "png"⟩
      ⟨"http:", "127.0.0.1", "8080", "/upload", "", ""⟩ "img.png"
      (by decide) rfl rfl⟩

/-- C9: the resolver depends on the parsed URL only through its pathname:
two displayed URLs that parse to the same pathname (in particular, URLs
differing only in query string or fragment) resolve identically. -/
theorem c9_resolution_ignores_query_fragment
    (v : Vault) (href1 href2 : String) (u1 u2 : ParsedURL)
    (hp1 : parseURL href1 = some u1) (hp2 : parseURL href2 = some u2)
    (hpath : u1.pathname = u2.pathname) :
    getTFileFormHref v href1 = getTFileFormHref v href2 := by
  simp only [getTFileFormHref, hp1, hp2, hpath]

/-- Witness for C9: a cache-busting query and a fragment do not change the
resolved file. -/
theorem c9_resolution_ignores_query_fragment_witness :
    getTFileFormHref demoVault "file:///vault/img.png?cache=1"
      = getTFileFormHref demoVault "file:///vault/img.png#frag" :=
  c9_resolution_ignores_query_fragment demoVault
    "file:///vault/img.png?cache=1" "file:///vault/img.png#frag"
    ⟨"file:", "", "", "/vault/img.png", "?cache=1", ""⟩
    ⟨"file:", "", "", "/vault/img.png", "", "#frag"⟩ rfl rfl rfl

/-- C10: only the endpoint URL is validated: with an empty API key the upload
does not fail with a configuration notice but issues its one request with the
`X-API-Key` header carrying the empty string. -/
theorem c10_empty_api_key_sent
    (v : Vault) (url : String) (file : TFile) (u : ParsedURL) (d : String)
    (h1 : url ≠ "") (hp : parseURL url = some u) (hd : decodeURI file.path = some d) :
    ∃ out : UploadOut, sendToImgCast v { baseURL := url, apiKey := "" } file = .ok out ∧
      out.notices = [] ∧
      out.requests.length = 1 ∧
      ∀ r ∈ out.requests, ("X-API-Key", "") ∈ r.headers := by
  refine ⟨_, sendToImgCast_run v ⟨url, ""⟩ file u d h1 hp hd, rfl, rfl, ?_⟩
  intro r hr
  simp only [List.mem_singleton] at hr
  subst hr
  simp

/-- Witness for C10 at a concrete endpoint. -/
theorem c10_empty_api_key_sent_witness :
    ∃ out : UploadOut,
      sendToImgCast demoVault { baseURL := "http://127.0.0.1:8080/upload", apiKey := "" }
          ⟨"img.png", "png"⟩ = .ok out ∧
      out.notices = [] ∧
      out.requests.length = 1 ∧
      ∀ r ∈ out.requests, ("X-API-Key", "") ∈ r.headers :=
  c10_empty_api_key_sent demoVault "http://127.0.0.1:8080/upload" ⟨"img.png", "png"⟩
    ⟨"http:", "127.0.0.1", "8080", "/upload", "", ""⟩ "img.png" (by decide) rfl rfl

end ImgCast
